import Mathlib

set_option maxHeartbeats 1000000

/-! Shallow embedding of `src/bin/wasmtime-http.rs`, the `wasmtime-http` CLI harness
of this repository, together with spec-modelled definitions of the HTTP capability
contract whose implementing crate is not under `src/`.  Machine integers are modelled
as `Nat`/`Int` with explicit range checks where the Rust code performs them. -/

/-- WebAssembly value types, mirroring `wasmtime::ValType` as matched in `invoke_func`. -/
inductive ValType
| I32
| I64
| F32
| F64
| ExternRef
| FuncRef
| V128
deriving DecidableEq

/-- Runtime values, mirroring the `wasmtime::Val` enum of the wasmtime version this
repository links: `F32`/`F64` carry the raw IEEE-754 bit pattern (`u32`/`u64` fields
in wasmtime), `V128` carries a `u128`, and the two reference variants carry an opaque
optional payload (`Option<ExternRef>` / `Option<Func>`) that the harness never inspects. -/
inductive Val
| I32 (i : Int)
| I64 (i : Int)
| F32 (bits : Nat)
| F64 (bits : Nat)
| ExternRef (r : Option Unit)
| FuncRef (f : Option Unit)
| V128 (n : Nat)
deriving DecidableEq

/-- Value of a decimal digit character, `none` on a non-digit: the per-character step
of Rust's `from_str` for integer types. -/
def charDigit (c : Char) : Option Nat :=
  if 48 ≤ c.toNat ∧ c.toNat ≤ 57 then some (c.toNat - 48) else none

/-- Accumulating decimal scan over the remaining characters, failing on the first
non-digit, as Rust's `from_str_radix` loop does at radix 10. -/
def digitsAux : Nat → List Char → Option Nat
  | acc, [] => some acc
  | acc, c :: cs =>
    match charDigit c with
    | some d => digitsAux (acc * 10 + d) cs
    | none => none

/-- Parse a nonempty all-digit character sequence to its decimal value; `none` on an
empty sequence (Rust's `Empty` error) or any non-digit (Rust's `InvalidDigit`). -/
def parseDigits (cs : List Char) : Option Nat :=
  if cs.isEmpty then none else digitsAux 0 cs

/-- Character-list form of Rust `FromStr` for an unsigned integer type with maximum
value `lim`: an optional leading `+`, then a nonempty digit string; values above `lim`
are Rust's overflow error, here folded into `none` since the harness treats every
parse failure identically. -/
def rustParseUnsignedCore (lim : Nat) : List Char → Option Nat
  | [] => none
  | c :: cs =>
    if c = '+' then
      (parseDigits cs).bind (fun n => if n ≤ lim then some n else none)
    else
      (parseDigits (c :: cs)).bind (fun n => if n ≤ lim then some n else none)

/-- Rust `FromStr` for an unsigned integer type with maximum value `lim` (so `u32` has
`lim = 2^32 - 1`), applied to the characters of the token. -/
def rustParseUnsigned (lim : Nat) (s : String) : Option Nat :=
  rustParseUnsignedCore lim s.data

/-- Character-list form of Rust `FromStr` for a signed integer type with range
`[lo, hi]`: an optional leading `+` or `-`, then a nonempty digit string; out-of-range
values are Rust's overflow error, folded into `none`. -/
def rustParseSignedCore (lo hi : Int) : List Char → Option Int
  | [] => none
  | c :: cs =>
    if c = '+' then
      (parseDigits cs).bind (fun n => if (n : Int) ≤ hi then some ((n : Int)) else none)
    else if c = '-' then
      (parseDigits cs).bind (fun n => if lo ≤ -(n : Int) then some (-(n : Int)) else none)
    else
      (parseDigits (c :: cs)).bind (fun n => if (n : Int) ≤ hi then some ((n : Int)) else none)

/-- Rust `FromStr` for a signed integer type with range `[lo, hi]` (so `i32` has
`lo = -2^31`, `hi = 2^31 - 1`), applied to the characters of the token. -/
def rustParseSigned (lo hi : Int) (s : String) : Option Int :=
  rustParseSignedCore lo hi s.data

/-- `i32::from_str`, as invoked by `val.parse()?` in the `ValType::I32` arm. -/
def rustParseI32 : String → Option Int := rustParseSigned (-(2 ^ 31)) (2 ^ 31 - 1)

/-- `i64::from_str`, as invoked by `val.parse()?` in the `ValType::I64` arm. -/
def rustParseI64 : String → Option Int := rustParseSigned (-(2 ^ 63)) (2 ^ 63 - 1)

/-- `u32::from_str`: the parse actually performed in the `ValType::F32` arm, because
`wasmtime::Val::F32` holds a `u32` of raw bits and `val.parse()?` infers `u32`. -/
def rustParseU32 : String → Option Nat := rustParseUnsigned (2 ^ 32 - 1)

/-- `u64::from_str`: the parse actually performed in the `ValType::F64` arm, because
`wasmtime::Val::F64` holds a `u64` of raw bits and `val.parse()?` infers `u64`. -/
def rustParseU64 : String → Option Nat := rustParseUnsigned (2 ^ 64 - 1)

/-- Failure modes of `invoke_func`'s argument-encoding loop: the `bail!("not enough
arguments for invocation")` arm, a `val.parse()?` failure (recorded here with the
offending token and the target kind, both in scope at the failure site), and the
`bail!("unsupported argument type {:?}", t)` arm recording the kind. -/
inductive EncodeError
| arity
| parse (token : String) (ty : ValType)
| unsupported (ty : ValType)
deriving DecidableEq

/-- One iteration of `invoke_func`'s encoding loop, given the parameter kind and the
token taken from the argument iterator: the `match ty` in `invoke_func`. -/
def encodeVal (ty : ValType) (tok : String) : Except EncodeError Val :=
  match ty with
  | ValType.I32 =>
    match rustParseI32 tok with
    | some v => Except.ok (Val.I32 v)
    | none => Except.error (EncodeError.parse tok ValType.I32)
  | ValType.I64 =>
    match rustParseI64 tok with
    | some v => Except.ok (Val.I64 v)
    | none => Except.error (EncodeError.parse tok ValType.I64)
  | ValType.F32 =>
    match rustParseU32 tok with
    | some v => Except.ok (Val.F32 v)
    | none => Except.error (EncodeError.parse tok ValType.F32)
  | ValType.F64 =>
    match rustParseU64 tok with
    | some v => Except.ok (Val.F64 v)
    | none => Except.error (EncodeError.parse tok ValType.F64)
  | t => Except.error (EncodeError.unsupported t)

/-- The argument-encoding loop of `invoke_func`: walks parameter kinds, takes one token
per parameter from the argument list (`args.next()`, bailing with the arity error when
the iterator is exhausted — before the kind is examined), encodes it, and collects the
typed values in order; extra trailing tokens are ignored, as the leftover iterator is. -/
def encode : List ValType → List String → Except EncodeError (List Val)
  | [], _ => Except.ok []
  | _ :: _, [] => Except.error EncodeError.arity
  | t :: ts, a :: rest =>
    match encodeVal t a with
    | Except.error e => Except.error e
    | Except.ok v =>
      match encode ts rest with
      | Except.error e => Except.error e
      | Except.ok vs => Except.ok (v :: vs)

/-- Decimal digit characters of `n`, most significant first, fuel-indexed so the
definition is structural; `natToDigits` supplies sufficient fuel. -/
def natToDigitsAux : Nat → Nat → List Char
  | 0, _ => []
  | fuel + 1, n =>
    if n < 10 then [Char.ofNat (48 + n)]
    else natToDigitsAux fuel (n / 10) ++ [Char.ofNat (48 + n % 10)]

/-- Decimal digit characters of `n`, most significant first. -/
def natToDigits (n : Nat) : List Char := natToDigitsAux (n + 1) n

/-- Rust's `Display` rendering of an unsigned integer. -/
def natDisplay (n : Nat) : String := String.mk (natToDigits n)

/-- Rust's `Display` rendering of a signed integer: a leading `-` on negatives, then
the decimal digits of the magnitude. -/
def intDisplay (i : Int) : String :=
  if i < 0 then String.mk ('-' :: natToDigits i.natAbs) else String.mk (natToDigits i.natAbs)

/-- IEEE-754 value domain for the decode side: the result of Rust's `f32::from_bits` /
`f64::from_bits` reinterpretation, decoded into sign and exact rational magnitude
(Rust's `Display` then renders this value in decimal; that rendering, not being part
of the repository, is kept as the value itself). -/
inductive FpVal
| nan
| inf (neg : Bool)
| finite (neg : Bool) (mag : ℚ)
deriving DecidableEq

/-- IEEE-754 bit-pattern decoding with `expBits` exponent bits and `mantBits` mantissa
bits: sign, biased exponent and mantissa fields, with the usual normal, subnormal,
infinity and NaN cases.  A finite magnitude `sig * 2^(E - bias - mantBits)` is written
with natural exponents as `sig * 2^E / 2^(bias + mantBits)` (a subnormal has `E = 1`
and no implicit bit). -/
def fpFromBits (expBits mantBits bits : Nat) : FpVal :=
  let mant := bits % 2 ^ mantBits
  let e := bits / 2 ^ mantBits % 2 ^ expBits
  let sign := bits / 2 ^ (mantBits + expBits) % 2
  let bias := 2 ^ (expBits - 1) - 1
  if e = 2 ^ expBits - 1 then
    if mant = 0 then FpVal.inf (sign == 1) else FpVal.nan
  else if e = 0 then
    FpVal.finite (sign == 1) (((mant * 2 : ℕ) : ℚ) / ((2 ^ (bias + mantBits) : ℕ) : ℚ))
  else
    FpVal.finite (sign == 1)
      ((((2 ^ mantBits + mant) * 2 ^ e : ℕ) : ℚ) / ((2 ^ (bias + mantBits) : ℕ) : ℚ))

/-- `f32::from_bits`, as applied by the `Val::F32` result arm before printing. -/
def f32FromBits (bits : Nat) : FpVal := fpFromBits 8 23 bits

/-- `f64::from_bits`, as applied by the `Val::F64` result arm before printing. -/
def f64FromBits (bits : Nat) : FpVal := fpFromBits 11 52 bits

/-- One printed output line of `invoke_func`'s result loop: a decimal integer line, a
decimal rendering of a float value obtained by bit reinterpretation, one of the two
fixed reference placeholders, or the raw `u128` of a vector value. -/
inductive Line
| int (i : Int)
| float (x : FpVal)
| externRef
| funcRef
| v128 (n : Nat)
deriving DecidableEq

/-- The per-result `match` of `invoke_func`'s printing loop. -/
def decodeVal : Val → Line
  | Val.I32 i => Line.int i
  | Val.I64 i => Line.int i
  | Val.F32 b => Line.float (f32FromBits b)
  | Val.F64 b => Line.float (f64FromBits b)
  | Val.ExternRef _ => Line.externRef
  | Val.FuncRef _ => Line.funcRef
  | Val.V128 n => Line.v128 n

/-- The result-printing loop of `invoke_func`: one line per result value, in order. -/
def decode (results : List Val) : List Line := results.map decodeVal

/-- Text of a printed line, where the repository itself determines it: integers and
vectors render in decimal, references as their fixed placeholder tokens; the decimal
rendering of a float value is performed by Rust's `Display` outside this repository
and is left unrendered here. -/
def lineText : Line → Option String
  | Line.int i => some (intDisplay i)
  | Line.float _ => none
  | Line.externRef => some "<externref>"
  | Line.funcRef => some "<funcref>"
  | Line.v128 n => some (natDisplay n)

/-- The signature data `invoke_func` reads from `func.ty()`: the ordered parameter kinds. -/
structure FuncTy where
  params : List ValType

/-- Abstraction of `func.call`: the guest maps the encoded arguments to either a trap
message or a list of result values. -/
def Guest := List Val → Except String (List Val)

/-- Failures propagated by `invoke_func` through its `Result` return: an encoding
failure or a guest trap raised by `func.call(&values)?`. -/
inductive InvokeError
| encode (e : EncodeError)
| trap (msg : String)

/-- `invoke_func`: encode the textual arguments against the parameter kinds, call the
function, decode the results into printed lines. -/
def invoke_func (g : Guest) (ty : FuncTy) (args : List String) : Except InvokeError (List Line) :=
  match encode ty.params args with
  | Except.error e => Except.error (InvokeError.encode e)
  | Except.ok vals =>
    match g vals with
    | Except.error m => Except.error (InvokeError.trap m)
    | Except.ok results => Except.ok (decode results)

/-- Outcome of `main` after the instance exists: a process abort via `panic!`, a
recoverable error propagated through `Result`, or the printed lines of a success. -/
inductive RunResult
| panicked (msg : String)
| errored (e : InvokeError)
| ok (lines : List Line)

/-- The invocation steps of `main` after `create_instance`: resolve the requested name
among the instance's exported functions (`instance.get_func`), panicking with
`cannot find function {name}` when absent, otherwise run `invoke_func`. -/
def runMain (exports : List (String × FuncTy × Guest)) (invokeName : String)
    (args : List String) : RunResult :=
  match List.lookup invokeName exports with
  | none => RunResult.panicked ("cannot find function " ++ invokeName)
  | some (ty, g) =>
    match invoke_func g ty args with
    | Except.error e => RunResult.errored e
    | Except.ok lines => RunResult.ok lines

/-- Split a character list at the first `=`, returning the parts before and after it,
or `none` when no `=` occurs: this is exactly what `s.splitn(2, '=')` yields, the
two-part case being `some` and the one-part case being `none`. -/
def splitFirst : List Char → Option (List Char × List Char)
  | [] => none
  | c :: cs =>
    if c = '=' then some ([], cs)
    else
      match splitFirst cs with
      | none => none
      | some (a, b) => some (c :: a, b)

/-- `parse_env_var`: `s.splitn(2, '=')` yields two parts exactly when `s` contains an
`=` (the first part before the first `=`, the second everything after it, verbatim);
with fewer parts the function bails with the fixed message. -/
def parse_env_var (s : String) : Except String (String × String) :=
  match splitFirst s.data with
  | none => Except.error "must be of the form `key=value`"
  | some (a, b) => Except.ok (String.mk a, String.mk b)

/-- Model of structopt's option parsing for the repeated `--env` flag: every raw token
passes through `parse_env_var` while `Opt::from_args` runs, before `main`'s body. -/
def parseEnvTokens : List String → Except String (List (String × String))
  | [] => Except.ok []
  | t :: ts =>
    match parse_env_var t with
    | Except.error m => Except.error m
    | Except.ok p =>
      match parseEnvTokens ts with
      | Except.error m => Except.error m
      | Except.ok ps => Except.ok (p :: ps)

/-- Overall outcome of the harness process: a fatal configuration error raised during
option parsing, or the outcome of `main`'s invocation phase. -/
inductive HarnessResult
| configError (msg : String)
| ran (r : RunResult)

/-- The process pipeline: option parsing (including every `--env` token) happens first;
only when it succeeds does `main` build capabilities and an instance (abstracted by
`exports`) and invoke. -/
def harnessMain (envTokens : List String) (exports : List (String × FuncTy × Guest))
    (invokeName : String) (args : List String) : HarnessResult :=
  match parseEnvTokens envTokens with
  | Except.error m => HarnessResult.configError m
  | Except.ok _ => HarnessResult.ran (runMain exports invokeName args)

/-- The four kinds `invoke_func` can encode from text; all others hit the
`unsupported argument type` arm. -/
def isNumKind : ValType → Bool
  | ValType.I32 => true
  | ValType.I64 => true
  | ValType.F32 => true
  | ValType.F64 => true
  | _ => false

/-- A parameter kind paired with an in-range integer value of that kind, for the
integer-only round-trip statement. -/
def IntKindVal (t : ValType) (v : Int) : Prop :=
  (t = ValType.I32 ∧ -(2 ^ 31) ≤ v ∧ v < 2 ^ 31) ∨
  (t = ValType.I64 ∧ -(2 ^ 63) ≤ v ∧ v < 2 ^ 63)

/-- The typed value an integer-kind parameter receives for value `v`. -/
def mkIntVal (t : ValType) (v : Int) : Val :=
  match t with
  | ValType.I64 => Val.I64 v
  | _ => Val.I32 v

/-- Modelled from the spec: the allowlist admission decision of the HTTP capability
(`wasi_experimental_http_wasmtime::HttpCtx`), whose implementation is not under
`src/`.  Per the spec's state machine, a request's target origin is admitted exactly
when an allowlist was configured and contains it: `None` (no allowlist configured)
and `Some []` (configured empty) both deny every origin — the fail-closed default. -/
def allowRequest (allowedHosts : Option (List String)) (origin : String) : Bool :=
  match allowedHosts with
  | none => false
  | some hosts => hosts.contains origin

/-- Modelled from the spec: a guest attempting the given sequence of outbound request
origins during one invocation; a denied request surfaces to the guest and (per the
spec and the integration tests) aborts the invocation, so the invocation completes
exactly when every attempted origin is admitted. -/
def invocationSucceeds (allowedHosts : Option (List String)) (origins : List String) : Bool :=
  origins.all (allowRequest allowedHosts)

/-- Modelled from the spec: observable events of the HTTP capability's admission
control for one outbound request. -/
inductive HttpEvent
| admitted
| throttled
| completed

/-- Modelled from the spec: serialized transitions of the shared in-flight request
counter under ceiling `k` (`max_concurrency = Some k`), whose implementation is not
under `src/`.  A request is admitted (incrementing the counter) only while the count
is strictly below the ceiling; a request arriving when the count has reached the
ceiling observes throttling and the counter is unchanged; a completion or failure
decrements.  Increments and decrements are serialized per the spec, so atomic steps
over a single counter are a faithful model. -/
inductive HttpStep (k : Nat) : Nat → HttpEvent → Nat → Prop
| grant (n : Nat) : n < k → HttpStep k n HttpEvent.admitted (n + 1)
| throttle (n : Nat) : k ≤ n → HttpStep k n HttpEvent.throttled n
| complete (n : Nat) : 0 < n → HttpStep k n HttpEvent.completed (n - 1)

/-- Modelled from the spec: counter states reachable during one invocation, starting
from zero in-flight requests. -/
inductive HttpReachable (k : Nat) : Nat → Prop
| init : HttpReachable k 0
| step (n : Nat) (e : HttpEvent) (m : Nat) :
    HttpReachable k n → HttpStep k n e m → HttpReachable k m

/-! Helper lemmas about decimal parsing and printing. -/

/-- Digit characters decode to their value. -/
theorem charDigit_lt10 : ∀ d, d < 10 → charDigit (Char.ofNat (48 + d)) = some d := by
  decide

/-- The digit scan distributes over list append. -/
theorem digitsAux_append :
    ∀ (xs : List Char) (acc : Nat) (ys : List Char),
      digitsAux acc (xs ++ ys) = (digitsAux acc xs).bind (fun a => digitsAux a ys) := by
  intro xs
  induction xs with
  | nil => intro acc ys; simp [digitsAux]
  | cons c cs ih =>
    intro acc ys
    cases hd : charDigit c with
    | none => simp [digitsAux, hd]
    | some d => simp [digitsAux, hd, ih]

/-- Printed digits of `n` are never the empty list. -/
theorem natToDigitsAux_ne_nil (f n : Nat) (h : n < f) : natToDigitsAux f n ≠ [] := by
  cases f with
  | zero => exact absurd h (Nat.not_lt_zero n)
  | succ g =>
    by_cases h10 : n < 10
    · simp [natToDigitsAux, h10]
    · simp [natToDigitsAux, h10]

/-- Every character printed for `n` is a decimal digit character. -/
theorem natToDigitsAux_digits :
    ∀ f n, n < f → ∀ c ∈ natToDigitsAux f n, ∃ d, d < 10 ∧ c = Char.ofNat (48 + d) := by
  intro f
  induction f with
  | zero => intro n h; exact absurd h (Nat.not_lt_zero n)
  | succ g ih =>
    intro n h c hc
    by_cases h10 : n < 10
    · simp [natToDigitsAux, h10] at hc
      exact ⟨n, h10, hc⟩
    · simp only [natToDigitsAux, if_neg h10] at hc
      rcases List.mem_append.mp hc with hm | hm
      · have hn0 : 0 < n := by omega
        have hdivn : n / 10 < n := Nat.div_lt_self hn0 (by omega)
        exact ih (n / 10) (by omega) c hm
      · simp at hm
        exact ⟨n % 10, Nat.mod_lt n (by omega), hm⟩

/-- Scanning the printed digits of `n` starting from accumulator `acc` yields
`acc` shifted past them, plus `n`. -/
theorem digitsAux_natToDigitsAux :
    ∀ f n, n < f → ∀ acc,
      digitsAux acc (natToDigitsAux f n)
        = some (acc * 10 ^ (natToDigitsAux f n).length + n) := by
  intro f
  induction f with
  | zero => intro n h; exact absurd h (Nat.not_lt_zero n)
  | succ g ih =>
    intro n h acc
    by_cases h10 : n < 10
    · have hc := charDigit_lt10 n h10
      simp [natToDigitsAux, h10, digitsAux, hc]
    · have hn0 : 0 < n := by omega
      have hdivn : n / 10 < n := Nat.div_lt_self hn0 (by omega)
      have hm := charDigit_lt10 (n % 10) (Nat.mod_lt n (by omega))
      simp only [natToDigitsAux, if_neg h10]
      rw [digitsAux_append, ih (n / 10) (by omega) acc]
      simp only [Option.some_bind, digitsAux, hm, List.length_append, List.length_cons,
        List.length_nil, Nat.zero_add]
      congr 1
      rw [pow_succ, ← Nat.mul_assoc]
      have key : ∀ q : Nat, (q + n / 10) * 10 + n % 10 = q * 10 + n := by
        intro q; omega
      exact key (acc * 10 ^ (natToDigitsAux g (n / 10)).length)

/-- Parsing the printed decimal digits of `n` recovers `n`. -/
theorem parseDigits_natToDigits (n : Nat) : parseDigits (natToDigits n) = some n := by
  have hval := digitsAux_natToDigitsAux (n + 1) n (Nat.lt_succ_self n) 0
  have hne := natToDigitsAux_ne_nil (n + 1) n (Nat.lt_succ_self n)
  unfold natToDigits
  cases hA : natToDigitsAux (n + 1) n with
  | nil => exact absurd hA hne
  | cons c cs =>
    rw [hA] at hval
    simp only [parseDigits, List.isEmpty_cons, Bool.false_eq_true, if_false]
    simpa using hval

/-- The first printed character of `n` is a digit, hence neither sign character. -/
theorem natToDigits_head (n : Nat) :
    ∃ c cs, natToDigits n = c :: cs ∧ charDigit c ≠ none ∧ c ≠ '+' ∧ c ≠ '-' := by
  have hne := natToDigitsAux_ne_nil (n + 1) n (Nat.lt_succ_self n)
  cases hA : natToDigitsAux (n + 1) n with
  | nil => exact absurd hA hne
  | cons c cs =>
    have hdig : charDigit c ≠ none := by
      have hd := natToDigitsAux_digits (n + 1) n (Nat.lt_succ_self n) c
        (by rw [hA]; exact List.mem_cons_self c cs)
      obtain ⟨d, hd10, rfl⟩ := hd
      rw [charDigit_lt10 d hd10]
      simp
    refine ⟨c, cs, hA, hdig, ?_, ?_⟩
    · intro h
      rw [h] at hdig
      exact hdig (by decide)
    · intro h
      rw [h] at hdig
      exact hdig (by decide)

/-- Unsigned parse inverts decimal display for in-range values. -/
theorem rustParseUnsigned_display (lim n : Nat) (h : n ≤ lim) :
    rustParseUnsigned lim (natDisplay n) = some n := by
  obtain ⟨c, cs, hcons, hdig, hplus, hminus⟩ := natToDigits_head n
  have hparse : parseDigits (c :: cs) = some n := by
    rw [← hcons]; exact parseDigits_natToDigits n
  unfold rustParseUnsigned natDisplay
  rw [show (String.mk (natToDigits n)).data = natToDigits n from rfl, hcons]
  simp [rustParseUnsignedCore, hplus, hparse, h]

/-- Signed parse inverts decimal display for in-range values. -/
theorem rustParseSigned_display (lo hi v : Int) (h1 : lo ≤ v) (h2 : v ≤ hi) :
    rustParseSigned lo hi (intDisplay v) = some v := by
  obtain ⟨c, cs, hcons, hdig, hplus, hminus⟩ := natToDigits_head v.natAbs
  have hparse : parseDigits (c :: cs) = some v.natAbs := by
    rw [← hcons]; exact parseDigits_natToDigits v.natAbs
  unfold rustParseSigned intDisplay
  by_cases hv : v < 0
  · rw [if_pos hv]
    rw [show (String.mk ('-' :: natToDigits v.natAbs)).data = '-' :: natToDigits v.natAbs from rfl]
    rw [hcons]
    have habs : (v.natAbs : Int) = -v := by omega
    have hlo : lo ≤ -(v.natAbs : Int) := by omega
    simp [rustParseSignedCore, hparse, hlo, habs, h1]
  · rw [if_neg hv]
    rw [show (String.mk (natToDigits v.natAbs)).data = natToDigits v.natAbs from rfl]
    rw [hcons]
    have habs : (v.natAbs : Int) = v := by omega
    simp [rustParseSignedCore, hplus, hminus, hparse, habs, h2]

/-- A successful digit scan means every character was a digit. -/
theorem digitsAux_mem_digit :
    ∀ (cs : List Char) (acc n : Nat), digitsAux acc cs = some n →
      ∀ c ∈ cs, charDigit c ≠ none := by
  intro cs
  induction cs with
  | nil =>
    intro acc n h c hc
    exact absurd hc (List.not_mem_nil c)
  | cons c0 cs1 ih =>
    intro acc n h c hc
    cases hd : charDigit c0 with
    | none =>
      rw [show digitsAux acc (c0 :: cs1)
          = (match charDigit c0 with
             | some d => digitsAux (acc * 10 + d) cs1
             | none => none) from rfl, hd] at h
      exact absurd h (by simp)
    | some d =>
      rw [show digitsAux acc (c0 :: cs1)
          = (match charDigit c0 with
             | some d => digitsAux (acc * 10 + d) cs1
             | none => none) from rfl, hd] at h
      rcases List.mem_cons.mp hc with rfl | hmem
      · rw [hd]; simp
      · exact ih _ _ h c hmem

/-- A successful parse means every character was a digit. -/
theorem parseDigits_mem_digit (cs : List Char) (n : Nat) (h : parseDigits cs = some n) :
    ∀ c ∈ cs, charDigit c ≠ none := by
  cases cs with
  | nil => simp [parseDigits] at h
  | cons c0 cs1 =>
    have h2 : digitsAux 0 (c0 :: cs1) = some n := by
      simpa [parseDigits] using h
    exact digitsAux_mem_digit (c0 :: cs1) 0 n h2

/-- A non-digit character anywhere makes the digit parse fail. -/
theorem parseDigits_none_of_nondigit (cs : List Char) (c0 : Char) (hm : c0 ∈ cs)
    (hc : charDigit c0 = none) : parseDigits cs = none := by
  cases h : parseDigits cs with
  | none => rfl
  | some n => exact absurd hc (parseDigits_mem_digit cs n h c0 hm)

/-- A non-digit character other than a leading `+` makes the unsigned parse fail. -/
theorem rustParseUnsignedCore_none (lim : Nat) (cs : List Char) (c0 : Char)
    (hm : c0 ∈ cs) (hc : charDigit c0 = none) (hplus : c0 ≠ '+') :
    rustParseUnsignedCore lim cs = none := by
  cases cs with
  | nil => rfl
  | cons c cs1 =>
    by_cases h : c = '+'
    · subst h
      have hm1 : c0 ∈ cs1 := by
        rcases List.mem_cons.mp hm with h1 | h1
        · exact absurd h1 hplus
        · exact h1
      simp [rustParseUnsignedCore, parseDigits_none_of_nondigit cs1 c0 hm1 hc]
    · simp [rustParseUnsignedCore, h,
        parseDigits_none_of_nondigit (c :: cs1) c0 hm hc]

/-- A non-digit character other than a leading sign makes the signed parse fail. -/
theorem rustParseSignedCore_none (lo hi : Int) (cs : List Char) (c0 : Char)
    (hm : c0 ∈ cs) (hc : charDigit c0 = none) (hplus : c0 ≠ '+') (hminus : c0 ≠ '-') :
    rustParseSignedCore lo hi cs = none := by
  cases cs with
  | nil => rfl
  | cons c cs1 =>
    by_cases hp : c = '+'
    · subst hp
      have hm1 : c0 ∈ cs1 := by
        rcases List.mem_cons.mp hm with h1 | h1
        · exact absurd h1 hplus
        · exact h1
      simp [rustParseSignedCore, parseDigits_none_of_nondigit cs1 c0 hm1 hc]
    · by_cases hn : c = '-'
      · subst hn
        have hm1 : c0 ∈ cs1 := by
          rcases List.mem_cons.mp hm with h1 | h1
          · exact absurd h1 hminus
          · exact h1
        simp [rustParseSignedCore, hp, parseDigits_none_of_nondigit cs1 c0 hm1 hc]
      · simp [rustParseSignedCore, hp, hn,
          parseDigits_none_of_nondigit (c :: cs1) c0 hm hc]

/-! Helper lemmas about the encoding loop. -/

/-- Encoding a parameter of a non-numeric kind fails with the unsupported error,
whatever the token. -/
theorem encodeVal_unsupported (k : ValType) (hk : isNumKind k = false) (tok : String) :
    encodeVal k tok = Except.error (EncodeError.unsupported k) := by
  cases k <;> simp_all [isNumKind, encodeVal]

/-- Encoding a longer parameter list splits into the prefix encoding (when it consumed
its tokens exactly) followed by the rest. -/
theorem encode_append :
    ∀ (ps : List ValType) (args1 : List String) (vs : List Val),
      encode ps args1 = Except.ok vs → args1.length = ps.length →
      ∀ (qs : List ValType) (rest : List String),
        encode (ps ++ qs) (args1 ++ rest) = (encode qs rest).map (fun ws => vs ++ ws) := by
  intro ps
  induction ps with
  | nil =>
    intro args1 vs h hlen qs rest
    have ha : args1 = [] := List.length_eq_zero.mp (by simpa using hlen)
    subst ha
    have hv : vs = [] := by
      have : (Except.ok [] : Except EncodeError (List Val)) = Except.ok vs := h
      cases this
      rfl
    subst hv
    cases hq : encode qs rest <;> simp [Except.map, hq]
  | cons t ts ih =>
    intro args1 vs h hlen qs rest
    cases args1 with
    | nil => simp [encode] at h
    | cons a args2 =>
      cases hv : encodeVal t a with
      | error e => simp [encode, hv] at h
      | ok v =>
        cases he : encode ts args2 with
        | error e => simp [encode, hv, he] at h
        | ok vs2 =>
          have hvs : vs = v :: vs2 := by
            have h2 := h
            simp [encode, hv, he] at h2
            exact h2.symm
          subst hvs
          have hlen2 : args2.length = ts.length := by simpa using hlen
          have hrec := ih args2 vs2 he hlen2 qs rest
          simp only [List.cons_append, encode, List.append_eq, hv]
          rw [hrec]
          cases hq : encode qs rest <;> simp [Except.map]

/-- With fewer tokens than parameters, the encoding loop always fails with some error. -/
theorem encode_short_errors :
    ∀ (ps : List ValType) (args : List String), args.length < ps.length →
      ∃ e, encode ps args = Except.error e := by
  intro ps
  induction ps with
  | nil => intro args h; simp at h
  | cons t ts ih =>
    intro args h
    cases args with
    | nil => exact ⟨EncodeError.arity, rfl⟩
    | cons a rest =>
      cases hv : encodeVal t a with
      | error e => exact ⟨e, by simp [encode, hv]⟩
      | ok v =>
        obtain ⟨e, he⟩ := ih rest (by simpa using h)
        exact ⟨e, by simp [encode, hv, he]⟩

/-- A parameter list containing a non-numeric kind never encodes successfully. -/
theorem encode_never_ok_of_unsupported :
    ∀ (ps : List ValType) (args : List String) (k : ValType),
      k ∈ ps → isNumKind k = false →
      ∀ ws, encode ps args ≠ Except.ok ws := by
  intro ps
  induction ps with
  | nil => intro args k hk _ _; exact absurd hk (List.not_mem_nil k)
  | cons t ts ih =>
    intro args k hk hnum ws
    cases args with
    | nil => simp [encode]
    | cons a rest =>
      rcases List.mem_cons.mp hk with rfl | hmem
      · simp [encode, encodeVal_unsupported k hnum a]
      · cases hv : encodeVal t a with
        | error e => simp [encode, hv]
        | ok v =>
          cases he : encode ts rest with
          | error e => simp [encode, hv, he]
          | ok vs2 => exact absurd he (ih rest k hmem hnum vs2)

/-- An encoding failure makes `invoke_func` fail without consulting the guest. -/
theorem invoke_func_encode_error (g : Guest) (ty : FuncTy) (args : List String)
    (e : EncodeError) (h : encode ty.params args = Except.error e) :
    invoke_func g ty args = Except.error (InvokeError.encode e) := by
  simp [invoke_func, h]

/-! Helper lemmas about `parse_env_var`. -/

/-- `splitFirst` finds nothing when no separator occurs. -/
theorem splitFirst_eq_none : ∀ cs : List Char, '=' ∉ cs → splitFirst cs = none := by
  intro cs
  induction cs with
  | nil => intro _; rfl
  | cons c cs1 ih =>
    intro h
    have hc : c ≠ '=' := by
      intro hc; exact h (by simp [hc])
    have h1 : '=' ∉ cs1 := fun hm => h (List.mem_cons_of_mem c hm)
    simp [splitFirst, hc, ih h1]

/-- `splitFirst` finds a split whenever a separator occurs. -/
theorem splitFirst_mem : ∀ cs : List Char, '=' ∈ cs → ∃ p, splitFirst cs = some p := by
  intro cs
  induction cs with
  | nil => intro h; exact absurd h (List.not_mem_nil _)
  | cons c cs1 ih =>
    intro h
    by_cases hc : c = '='
    · exact ⟨([], cs1), by simp [splitFirst, hc]⟩
    · have h1 : '=' ∈ cs1 := by
        rcases List.mem_cons.mp h with h2 | h2
        · exact absurd h2.symm hc
        · exact h2
      obtain ⟨⟨a, b⟩, hp⟩ := ih h1
      exact ⟨(c :: a, b), by simp [splitFirst, hc, hp]⟩

/-- `splitFirst` splits at the first separator, keeping everything after it verbatim. -/
theorem splitFirst_append :
    ∀ (a b : List Char), '=' ∉ a → splitFirst (a ++ '=' :: b) = some (a, b) := by
  intro a
  induction a with
  | nil => intro b _; simp [splitFirst]
  | cons c a1 ih =>
    intro b h
    have hc : c ≠ '=' := by
      intro hc; exact h (by simp [hc])
    have ha1 : '=' ∉ a1 := fun hm => h (List.mem_cons_of_mem c hm)
    simp [splitFirst, hc, ih b ha1]

/-- Any error `parse_env_var` returns is the fixed configuration message. -/
theorem parse_env_var_error_msg (s : String) (m : String)
    (h : parse_env_var s = Except.error m) : m = "must be of the form `key=value`" := by
  unfold parse_env_var at h
  cases hs : splitFirst s.data with
  | none =>
    rw [hs] at h
    cases h
    rfl
  | some p =>
    obtain ⟨a, b⟩ := p
    rw [hs] at h
    cases h

/-- `parse_env_var` fails exactly on tokens with no separator, with the fixed message. -/
theorem parse_env_var_no_sep (s : String) (h : '=' ∉ s.data) :
    parse_env_var s = Except.error "must be of the form `key=value`" := by
  unfold parse_env_var
  rw [splitFirst_eq_none s.data h]

/-- A list of characters that are all non-digits (and not a leading sign) fails the
signed parse. -/
theorem rustParseSignedCore_none_all (lo hi : Int) (cs : List Char)
    (h : ∀ c ∈ cs, charDigit c = none ∧ c ≠ '+' ∧ c ≠ '-') :
    rustParseSignedCore lo hi cs = none := by
  cases cs with
  | nil => rfl
  | cons c cs1 =>
    obtain ⟨hc, hp, hm⟩ := h c (List.mem_cons_self c cs1)
    exact rustParseSignedCore_none lo hi (c :: cs1) c (List.mem_cons_self c cs1) hc hp hm

/-- A list of characters that are all non-digits (and not a leading `+`) fails the
unsigned parse. -/
theorem rustParseUnsignedCore_none_all (lim : Nat) (cs : List Char)
    (h : ∀ c ∈ cs, charDigit c = none ∧ c ≠ '+') :
    rustParseUnsignedCore lim cs = none := by
  cases cs with
  | nil => rfl
  | cons c cs1 =>
    obtain ⟨hc, hp⟩ := h c (List.mem_cons_self c cs1)
    exact rustParseUnsignedCore_none lim (c :: cs1) c (List.mem_cons_self c cs1) hc hp

/-- Claim C1 (corrected): `encode` parses integer-kind tokens with the signed decimal
integer parse of the corresponding width; for the 32- and 64-bit float kinds it parses
the token as an unsigned decimal integer denoting the raw IEEE-754 bit pattern — not
in floating-point format, so a token containing a decimal point is always rejected.
Any token failing the applicable integer parse yields a parse error carrying the
offending token and the target kind. -/
theorem encode_numeric_formats :
    (∀ v : Int, -(2 ^ 31) ≤ v → v < 2 ^ 31 →
      encode [ValType.I32] [intDisplay v] = Except.ok [Val.I32 v]) ∧
    (∀ v : Int, -(2 ^ 63) ≤ v → v < 2 ^ 63 →
      encode [ValType.I64] [intDisplay v] = Except.ok [Val.I64 v]) ∧
    (∀ n : Nat, n < 2 ^ 32 →
      encode [ValType.F32] [natDisplay n] = Except.ok [Val.F32 n]) ∧
    (∀ n : Nat, n < 2 ^ 64 →
      encode [ValType.F64] [natDisplay n] = Except.ok [Val.F64 n]) ∧
    (∀ tok : String, '.' ∈ tok.data →
      encode [ValType.F32] [tok] = Except.error (EncodeError.parse tok ValType.F32)) ∧
    (∀ tok : String, '.' ∈ tok.data →
      encode [ValType.F64] [tok] = Except.error (EncodeError.parse tok ValType.F64)) ∧
    (∀ (k : ValType) (tok : String), isNumKind k = true →
      (∀ c ∈ tok.data, charDigit c = none ∧ c ≠ '+' ∧ c ≠ '-') →
      encode [k] [tok] = Except.error (EncodeError.parse tok k)) := by
  refine ⟨?_, ?_, ?_, ?_, ?_, ?_, ?_⟩
  · intro v h1 h2
    have hp : rustParseSigned (-(2 ^ 31)) (2 ^ 31 - 1) (intDisplay v) = some v :=
      rustParseSigned_display _ _ v h1 (by omega)
    norm_num at hp
    simp [encode, encodeVal, rustParseI32, hp]
  · intro v h1 h2
    have hp : rustParseSigned (-(2 ^ 63)) (2 ^ 63 - 1) (intDisplay v) = some v :=
      rustParseSigned_display _ _ v h1 (by omega)
    norm_num at hp
    simp [encode, encodeVal, rustParseI64, hp]
  · intro n h
    have hp : rustParseUnsigned (2 ^ 32 - 1) (natDisplay n) = some n :=
      rustParseUnsigned_display _ n (by omega)
    norm_num at hp
    simp [encode, encodeVal, rustParseU32, hp]
  · intro n h
    have hp : rustParseUnsigned (2 ^ 64 - 1) (natDisplay n) = some n :=
      rustParseUnsigned_display _ n (by omega)
    norm_num at hp
    simp [encode, encodeVal, rustParseU64, hp]
  · intro tok hm
    have hp : rustParseUnsignedCore (2 ^ 32 - 1) tok.data = none :=
      rustParseUnsignedCore_none _ tok.data '.' hm (by decide) (by decide)
    norm_num at hp
    simp [encode, encodeVal, rustParseU32, rustParseUnsigned, hp]
  · intro tok hm
    have hp : rustParseUnsignedCore (2 ^ 64 - 1) tok.data = none :=
      rustParseUnsignedCore_none _ tok.data '.' hm (by decide) (by decide)
    norm_num at hp
    simp [encode, encodeVal, rustParseU64, rustParseUnsigned, hp]
  · intro k tok hk hall
    cases k with
    | I32 =>
      have hp : rustParseSignedCore (-(2 ^ 31)) (2 ^ 31 - 1) tok.data = none :=
        rustParseSignedCore_none_all _ _ tok.data hall
      norm_num at hp
      simp [encode, encodeVal, rustParseI32, rustParseSigned, hp]
    | I64 =>
      have hp : rustParseSignedCore (-(2 ^ 63)) (2 ^ 63 - 1) tok.data = none :=
        rustParseSignedCore_none_all _ _ tok.data hall
      norm_num at hp
      simp [encode, encodeVal, rustParseI64, rustParseSigned, hp]
    | F32 =>
      have hp : rustParseUnsignedCore (2 ^ 32 - 1) tok.data = none :=
        rustParseUnsignedCore_none_all _ tok.data (fun c hc => ⟨(hall c hc).1, (hall c hc).2.1⟩)
      norm_num at hp
      simp [encode, encodeVal, rustParseU32, rustParseUnsigned, hp]
    | F64 =>
      have hp : rustParseUnsignedCore (2 ^ 64 - 1) tok.data = none :=
        rustParseUnsignedCore_none_all _ tok.data (fun c hc => ⟨(hall c hc).1, (hall c hc).2.1⟩)
      norm_num at hp
      simp [encode, encodeVal, rustParseU64, rustParseUnsigned, hp]
    | ExternRef => simp [isNumKind] at hk
    | FuncRef => simp [isNumKind] at hk
    | V128 => simp [isNumKind] at hk

/-- Witness for C1: concrete in-range tokens of each flavour encode as stated. -/
theorem encode_numeric_formats_witness :
    encode [ValType.I32] [intDisplay (-12)] = Except.ok [Val.I32 (-12)] ∧
    encode [ValType.F32] [natDisplay 1078530011] = Except.ok [Val.F32 1078530011] :=
  ⟨encode_numeric_formats.1 (-12) (by norm_num) (by norm_num),
   encode_numeric_formats.2.2.1 1078530011 (by norm_num)⟩

/-- Counterexample for C1 as stated: the floating-point-format token `3.5` is rejected
by the 32-bit float kind with a parse error, while the raw bit pattern `1078530011`
(the bits of the `f32` nearest pi) is accepted — the float kinds perform an unsigned
integer parse, not a floating-point parse. -/
theorem encode_float_token_counterexample :
    encode [ValType.F32] ["3.5"] = Except.error (EncodeError.parse "3.5" ValType.F32) ∧
    encode [ValType.F32] ["1078530011"] = Except.ok [Val.F32 1078530011] :=
  ⟨rfl, rfl⟩

/-- Claim C2 (corrected): for signatures consisting only of the two integer kinds,
encoding each value's printed decimal form and decoding those same values yields the
same printed forms again.  For the float kinds the encoder accepts only the raw bit
pattern as an unsigned decimal integer, so the printed decimal form of a float value
does not round-trip (see the counterexample). -/
theorem encode_decode_roundtrip (params : List ValType) (vals : List Int)
    (h : List.Forall₂ IntKindVal params vals) :
    encode params (vals.map intDisplay) = Except.ok (List.zipWith mkIntVal params vals) ∧
    (decode (List.zipWith mkIntVal params vals)).map lineText
      = (vals.map intDisplay).map some := by
  induction h with
  | nil => exact ⟨rfl, rfl⟩
  | @cons t v ts vs hpair htail ih =>
    obtain ⟨h1, h2⟩ := ih
    have henc : encodeVal t (intDisplay v) = Except.ok (mkIntVal t v) := by
      rcases hpair with ⟨ht, hlo, hhi⟩ | ⟨ht, hlo, hhi⟩
      · subst ht
        have hp : rustParseSigned (-(2 ^ 31)) (2 ^ 31 - 1) (intDisplay v) = some v :=
          rustParseSigned_display _ _ v hlo (by omega)
        norm_num at hp
        simp [encodeVal, rustParseI32, mkIntVal, hp]
      · subst ht
        have hp : rustParseSigned (-(2 ^ 63)) (2 ^ 63 - 1) (intDisplay v) = some v :=
          rustParseSigned_display _ _ v hlo (by omega)
        norm_num at hp
        simp [encodeVal, rustParseI64, mkIntVal, hp]
    have hline : lineText (decodeVal (mkIntVal t v)) = some (intDisplay v) := by
      rcases hpair with ⟨ht, _, _⟩ | ⟨ht, _, _⟩ <;> subst ht <;>
        simp [mkIntVal, decodeVal, lineText]
    constructor
    · simp only [List.map_cons, encode, henc, h1, List.zipWith_cons_cons]
    · simp only [List.zipWith_cons_cons, decode, List.map_cons, hline]
      have h2' : (decode (List.zipWith mkIntVal ts vs)).map lineText
          = (vs.map intDisplay).map some := h2
      simp only [decode] at h2'
      rw [h2']

/-- Witness for C2: a two-parameter integer signature round-trips the printed forms
of `-5` and `7`. -/
theorem encode_decode_roundtrip_witness :
    encode [ValType.I32, ValType.I64] ([(-5 : Int), 7].map intDisplay)
        = Except.ok (List.zipWith mkIntVal [ValType.I32, ValType.I64] [(-5 : Int), 7]) ∧
    (decode (List.zipWith mkIntVal [ValType.I32, ValType.I64] [(-5 : Int), 7])).map lineText
        = (([(-5 : Int), 7]).map intDisplay).map some :=
  encode_decode_roundtrip [ValType.I32, ValType.I64] [(-5 : Int), 7]
    (List.Forall₂.cons (Or.inl ⟨rfl, by norm_num, by norm_num⟩)
      (List.Forall₂.cons (Or.inr ⟨rfl, by norm_num, by norm_num⟩) List.Forall₂.nil))

/-- Counterexample for C2 as stated: for a 64-bit float parameter, the printed decimal
form `2.5` of the value `5/2` fails to encode at all; the token that does encode is
the raw bit pattern `4612811918334230528`, whose decoded output line carries the
reinterpreted value `5/2` and not that token — so the printed decimal form of a float
value does not round-trip through encode and decode. -/
theorem roundtrip_float_counterexample :
    encode [ValType.F64] ["2.5"] = Except.error (EncodeError.parse "2.5" ValType.F64) ∧
    encode [ValType.F64] ["4612811918334230528"] = Except.ok [Val.F64 4612811918334230528] ∧
    decodeVal (Val.F64 4612811918334230528) = Line.float (FpVal.finite false ((5 : ℚ) / 2)) :=
  ⟨rfl, rfl, by norm_num [decodeVal, f64FromBits, fpFromBits]⟩

/-- Claim C5 (corrected): with fewer text tokens than parameters, encoding always
fails and the guest function is never invoked (the outcome of `invoke_func` does not
depend on the guest); the failure is the arity error whenever the supplied tokens all
encode successfully against the corresponding parameter prefix — an earlier token's
parse or unsupported-kind failure is reported instead when one occurs. -/
theorem arity_failure (params : List ValType) (args : List String)
    (h : args.length < params.length) :
    (∃ e, encode params args = Except.error e) ∧
    (∀ vs, encode (params.take args.length) args = Except.ok vs →
      encode params args = Except.error EncodeError.arity) ∧
    (∀ (g g' : Guest) (ty : FuncTy), ty.params = params →
      invoke_func g ty args = invoke_func g' ty args) := by
  have hex := encode_short_errors params args h
  refine ⟨hex, ?_, ?_⟩
  · intro vs hok
    have hlen : args.length = (params.take args.length).length := by
      simp [List.length_take]
      omega
    have happ := encode_append (params.take args.length) args vs hok hlen
      (params.drop args.length) []
    rw [List.take_append_drop, List.append_nil] at happ
    cases hd : params.drop args.length with
    | nil =>
      have hlen2 : params.length - args.length = 0 := by
        rw [← List.length_drop, hd]
        rfl
      omega
    | cons d ds =>
      rw [hd] at happ
      simpa [encode, Except.map] using happ
  · intro g g' ty hty
    obtain ⟨e, he⟩ := hex
    have he' : encode ty.params args = Except.error e := by rw [hty]; exact he
    rw [invoke_func_encode_error g ty args e he', invoke_func_encode_error g' ty args e he']

/-- Witness for C5: one 32-bit integer parameter and no tokens yields the arity error. -/
theorem arity_failure_witness :
    encode [ValType.I32] ([] : List String) = Except.error EncodeError.arity :=
  (arity_failure [ValType.I32] [] (by decide)).2.1 [] rfl

/-- Counterexample for C5 as stated: with two 32-bit integer parameters and the single
non-numeric token `x`, the token list is shorter than the parameter list, yet encoding
fails with a parse error on `x`, not with the arity error. -/
theorem arity_error_counterexample :
    (["x"] : List String).length < ([ValType.I32, ValType.I32] : List ValType).length ∧
    encode [ValType.I32, ValType.I32] ["x"] = Except.error (EncodeError.parse "x" ValType.I32) ∧
    EncodeError.parse "x" ValType.I32 ≠ EncodeError.arity :=
  ⟨by decide, rfl, by decide⟩

/-- Claim C6 (corrected): when encoding reaches a parameter of a kind outside the four
numeric kinds with a token supplied for it (every earlier parameter having encoded
successfully), it fails with the unsupported-type error naming that kind, regardless
of the token; moreover a signature containing such a kind never encodes successfully,
and the guest function is never invoked.  An earlier parameter's failure, or the arity
error when the tokens run out sooner, takes precedence (see the counterexample). -/
theorem unsupported_kind_failure (pre : List ValType) (k : ValType) (post : List ValType)
    (args1 : List String) (tok : String) (rest : List String) (vs : List Val)
    (hk : isNumKind k = false)
    (h1 : encode pre args1 = Except.ok vs) (hlen : args1.length = pre.length) :
    encode (pre ++ k :: post) (args1 ++ tok :: rest)
        = Except.error (EncodeError.unsupported k) ∧
    (∀ (params : List ValType) (args : List String), k ∈ params →
      ∀ ws, encode params args ≠ Except.ok ws) ∧
    (∀ (g g' : Guest) (ty : FuncTy), ty.params = pre ++ k :: post →
      invoke_func g ty (args1 ++ tok :: rest) = invoke_func g' ty (args1 ++ tok :: rest)) := by
  have happ := encode_append pre args1 vs h1 hlen (k :: post) (tok :: rest)
  have hx : encode (k :: post) (tok :: rest) = Except.error (EncodeError.unsupported k) := by
    simp [encode, encodeVal_unsupported k hk tok]
  rw [hx] at happ
  have hmain : encode (pre ++ k :: post) (args1 ++ tok :: rest)
      = Except.error (EncodeError.unsupported k) := by
    simpa [Except.map] using happ
  refine ⟨hmain, ?_, ?_⟩
  · intro params args hkmem ws
    exact encode_never_ok_of_unsupported params args k hkmem hk ws
  · intro g g' ty hty
    have he' : encode ty.params (args1 ++ tok :: rest)
        = Except.error (EncodeError.unsupported k) := by rw [hty]; exact hmain
    rw [invoke_func_encode_error g ty _ _ he', invoke_func_encode_error g' ty _ _ he']

/-- Witness for C6: after a successfully encoded integer parameter, an
opaque-reference parameter with a token supplied fails naming that kind. -/
theorem unsupported_kind_failure_witness :
    encode ([ValType.I32] ++ ValType.ExternRef :: []) (["7"] ++ "x" :: [])
        = Except.error (EncodeError.unsupported ValType.ExternRef) :=
  (unsupported_kind_failure [ValType.I32] ValType.ExternRef [] ["7"] "x" [] [Val.I32 7]
    rfl rfl rfl).1

/-- Counterexample for C6 as stated: with parameters `[i32, externref]` and tokens
`["abc", "x"]` the opaque-reference parameter has a token supplied, yet encoding fails
with the parse error on the earlier token `abc`, not with an unsupported-type error
naming the reference kind. -/
theorem unsupported_kind_counterexample :
    isNumKind ValType.ExternRef = false ∧
    encode [ValType.I32, ValType.ExternRef] ["abc", "x"]
        = Except.error (EncodeError.parse "abc" ValType.I32) ∧
    EncodeError.parse "abc" ValType.I32 ≠ EncodeError.unsupported ValType.ExternRef :=
  ⟨rfl, rfl, by decide⟩

/-- Claim C7 (confirmed): decoding prints exactly one line per result value, in
declared order; 32- and 64-bit integer results render in decimal, float results are
reinterpreted from their raw bit pattern (`f32::from_bits` / `f64::from_bits`) before
decimal printing — the printed value is the reinterpreted float, never the bit
pattern, as the concrete conjunct shows — references print the fixed placeholder
tokens and a 128-bit vector prints its raw integer. -/
theorem decode_line_per_result :
    (∀ results : List Val, (decode results).length = results.length) ∧
    (∀ (results : List Val) (i : Nat), (decode results)[i]? = (results[i]?).map decodeVal) ∧
    (∀ i, decodeVal (Val.I32 i) = Line.int i) ∧
    (∀ i, decodeVal (Val.I64 i) = Line.int i) ∧
    (∀ b, decodeVal (Val.F32 b) = Line.float (f32FromBits b)) ∧
    (∀ b, decodeVal (Val.F64 b) = Line.float (f64FromBits b)) ∧
    (∀ r, decodeVal (Val.ExternRef r) = Line.externRef) ∧
    (∀ f, decodeVal (Val.FuncRef f) = Line.funcRef) ∧
    (∀ n, decodeVal (Val.V128 n) = Line.v128 n) ∧
    decodeVal (Val.F32 1078530011)
        = Line.float (FpVal.finite false ((13176795 : ℚ) / 4194304)) ∧
    ((13176795 : ℚ) / 4194304) ≠ ((1078530011 : ℚ)) := by
  refine ⟨?_, ?_, fun i => rfl, fun i => rfl, fun b => rfl, fun b => rfl, fun r => rfl,
    fun f => rfl, fun n => rfl, ?_, ?_⟩
  · intro results
    simp [decode]
  · intro results i
    simp [decode]
  · norm_num [decodeVal, f32FromBits, fpFromBits]
  · norm_num

/-- Claim C8 (confirmed): when the requested name is not among the instance's exported
functions, `main` panics with a message naming the missing function — an abort of the
whole process, distinct from the recoverable propagated-error outcome and from
success. -/
theorem function_not_found_panics (exports : List (String × FuncTy × Guest))
    (invokeName : String) (args : List String)
    (h : List.lookup invokeName exports = none) :
    runMain exports invokeName args
        = RunResult.panicked ("cannot find function " ++ invokeName) ∧
    (∀ e, RunResult.panicked ("cannot find function " ++ invokeName)
        ≠ RunResult.errored e) ∧
    (∀ lines, RunResult.panicked ("cannot find function " ++ invokeName)
        ≠ RunResult.ok lines) := by
  refine ⟨by simp [runMain, h], ?_, ?_⟩
  · intro e hcontra
    cases hcontra
  · intro lines hcontra
    cases hcontra

/-- Witness for C8: an instance with no exports panics on any requested name. -/
theorem function_not_found_panics_witness :
    runMain ([] : List (String × FuncTy × Guest)) "run" []
        = RunResult.panicked ("cannot find function " ++ "run") :=
  (function_not_found_panics [] "run" [] rfl).1

/-- Claim C9 (confirmed): an `--env` token with no `=` separator makes option parsing
fail with the fixed configuration message, and the whole harness run returns that
configuration error whatever the instance's exports, invoked name or arguments — the
failure happens during option parsing, before any capability or instance is consulted. -/
theorem env_token_missing_separator_fatal (ts : List String) (t : String)
    (hmem : t ∈ ts) (hnoeq : '=' ∉ t.data) :
    parseEnvTokens ts = Except.error "must be of the form `key=value`" ∧
    (∀ (exports : List (String × FuncTy × Guest)) (invokeName : String)
        (args : List String),
      harnessMain ts exports invokeName args
        = HarnessResult.configError "must be of the form `key=value`") := by
  have hmain : ∀ ts1 : List String, t ∈ ts1 →
      parseEnvTokens ts1 = Except.error "must be of the form `key=value`" := by
    intro ts1
    induction ts1 with
    | nil =>
      intro hm
      exact absurd hm (List.not_mem_nil t)
    | cons t0 ts2 ih =>
      intro hm
      cases hp : parse_env_var t0 with
      | error m =>
        have hmsg := parse_env_var_error_msg t0 m hp
        subst hmsg
        simp [parseEnvTokens, hp]
      | ok p =>
        rcases List.mem_cons.mp hm with rfl | hm1
        · rw [parse_env_var_no_sep t hnoeq] at hp
          cases hp
        · simp [parseEnvTokens, hp, ih hm1]
  refine ⟨hmain ts hmem, ?_⟩
  intro exports invokeName args
  simp [harnessMain, hmain ts hmem]

/-- Witness for C9: the token `FOO` has no separator, so option parsing fails and the
harness reports the configuration error even with no exports at all. -/
theorem env_token_missing_separator_fatal_witness :
    parseEnvTokens ["FOO"] = Except.error "must be of the form `key=value`" ∧
    harnessMain ["FOO"] ([] : List (String × FuncTy × Guest)) "go" []
        = HarnessResult.configError "must be of the form `key=value`" :=
  ⟨(env_token_missing_separator_fatal ["FOO"] "FOO" (by decide) (by decide)).1,
   (env_token_missing_separator_fatal ["FOO"] "FOO" (by decide) (by decide)).2 [] "go" []⟩

/-- Claim C10 (confirmed): `parse_env_var` splits only at the first `=`: a token whose
name part contains no `=` followed by `=` and an arbitrary remainder (which may itself
contain `=` and may be empty) is accepted verbatim as that name and value; a token
containing at least one `=` is always accepted, and one containing none is rejected
with the fixed message. -/
theorem parse_env_var_splits_first :
    (∀ a b : List Char, '=' ∉ a →
      parse_env_var (String.mk (a ++ '=' :: b)) = Except.ok (String.mk a, String.mk b)) ∧
    (∀ s : String, '=' ∈ s.data → ∃ p, parse_env_var s = Except.ok p) ∧
    (∀ s : String, '=' ∉ s.data →
      parse_env_var s = Except.error "must be of the form `key=value`") := by
  refine ⟨?_, ?_, ?_⟩
  · intro a b h
    unfold parse_env_var
    rw [show (String.mk (a ++ '=' :: b)).data = a ++ '=' :: b from rfl]
    rw [splitFirst_append a b h]
  · intro s h
    obtain ⟨⟨x, y⟩, hp⟩ := splitFirst_mem s.data h
    refine ⟨(String.mk x, String.mk y), ?_⟩
    unfold parse_env_var
    rw [hp]
  · exact parse_env_var_no_sep

/-- Witness for C10: `NAME=a=b` parses to name `NAME` and value `a=b`, the value
keeping its own `=` verbatim. -/
theorem parse_env_var_splits_first_witness :
    parse_env_var (String.mk (['N', 'A', 'M', 'E'] ++ '=' :: ['a', '=', 'b']))
        = Except.ok (String.mk ['N', 'A', 'M', 'E'], String.mk ['a', '=', 'b']) :=
  parse_env_var_splits_first.1 ['N', 'A', 'M', 'E'] ['a', '=', 'b'] (by decide)

/-- Claim C3 (confirmed, spec-modelled): the allowlist is fail-closed — with no
allowlist configured, or an empty one, every origin is denied, and any invocation that
attempts at least one outbound request fails; an origin outside a configured nonempty
set is likewise denied. -/
theorem allowlist_fail_closed :
    (∀ origin : String, allowRequest none origin = false) ∧
    (∀ origin : String, allowRequest (some []) origin = false) ∧
    (∀ (hosts : List String) (origin : String), origin ∉ hosts →
      allowRequest (some hosts) origin = false) ∧
    (∀ (cfg : Option (List String)) (origins : List String),
      (cfg = none ∨ cfg = some []) → origins ≠ [] →
      invocationSucceeds cfg origins = false) := by
  refine ⟨fun origin => rfl, fun origin => rfl, ?_, ?_⟩
  · intro hosts origin h
    simpa [allowRequest] using h
  · intro cfg origins hcfg hne
    cases origins with
    | nil => exact absurd rfl hne
    | cons o os =>
      rcases hcfg with rfl | rfl
      · simp [invocationSucceeds, allowRequest]
      · simp [invocationSucceeds, allowRequest]

/-- Witness for C3: an origin outside the configured set is denied, and an invocation
attempting a request under no allowlist fails. -/
theorem allowlist_fail_closed_witness :
    allowRequest (some ["https://api.brigade.sh", "https://postman-echo.com"])
        "https://evil.example" = false ∧
    invocationSucceeds none ["https://api.brigade.sh"] = false :=
  ⟨allowlist_fail_closed.2.2.1 ["https://api.brigade.sh", "https://postman-echo.com"]
      "https://evil.example" (by decide),
   allowlist_fail_closed.2.2.2 none ["https://api.brigade.sh"] (Or.inl rfl) (by decide)⟩

/-- Claim C4 (confirmed, spec-modelled): under ceiling `k`, every counter state
reachable from zero in-flight requests stays at most `k`; a request arriving at the
ceiling can never be admitted — it observes throttling — so the `(k+1)`th concurrent
request is never silently admitted. -/
theorem concurrency_bound_invariant :
    (∀ (k n : Nat), HttpReachable k n → n ≤ k) ∧
    (∀ (k n m : Nat), k ≤ n → ¬HttpStep k n HttpEvent.admitted m) ∧
    (∀ (k n : Nat), k ≤ n → HttpStep k n HttpEvent.throttled n) := by
  refine ⟨?_, ?_, ?_⟩
  · intro k n h
    induction h with
    | init => exact Nat.zero_le k
    | step n0 e m hr hs ih =>
      cases hs <;> omega
  · intro k n m hk hstep
    cases hstep
    omega
  · intro k n hk
    exact HttpStep.throttle n hk

/-- Witness for C4: with ceiling 2, the state with two admitted requests is reachable
and within the bound, and a third concurrent admission is impossible from it. -/
theorem concurrency_bound_invariant_witness :
    (2 : Nat) ≤ 2 ∧ ¬HttpStep 2 2 HttpEvent.admitted 3 := by
  constructor
  · exact concurrency_bound_invariant.1 2 2
      (HttpReachable.step 1 HttpEvent.admitted 2
        (HttpReachable.step 0 HttpEvent.admitted 1 HttpReachable.init
          (HttpStep.grant 0 (by omega)))
        (HttpStep.grant 1 (by omega)))
  · exact concurrency_bound_invariant.2.1 2 2 3 (Nat.le_refl 2)
